import Mathlib

/-!
Verification of the `SubConfig` loader (`vhdmmio/config/subconfig.py`) and of
the BitRange / field-layout algorithms of the vhdmmio configuration engine.

The configuration dictionaries decoded from YAML are modelled as association
lists of string keys and `Value`s.  `SubConfig` is embedded faithfully from
`vhdmmio/config/subconfig.py`; the nested `Configurable` class it wraps is a
parameter of the loader in the source (`self._configurable`) and is therefore
modelled as an abstract `ConfigModel` record (constructor, serializer, declared
key set, parent reference).
-/

namespace Vhdmmio

/-- A YAML-ish scalar or nested mapping, the values stored in configuration
dictionaries. -/
inductive Value where
  | vint : Int → Value
  | vstr : String → Value
  | vbool : Bool → Value
  | vdict : List (String × Value) → Value

/-- A configuration dictionary: an ordered association list of keys to values
(Python dictionaries preserve insertion order and have unique keys). -/
abbrev Dict := List (String × Value)

/-- Modelled from the spec: the error taxonomy of `vhdmmio.config.utils`
(`ParseError`, which carries a key path, plus Python `assert` /
`TypeError` / `ValueError` failures), which is not under `src/`.
`assertPrefixStyle` is the failure of the guard `assert self._style is not
True` in the `prefix` property; `assertOptionalValue` is the failure of
`assert self._optional` in `serialize`. -/
inductive Err where
  | parseError (path : List String) (msg : String)
  | assertPrefixStyle
  | assertOptionalValue
  | typeError (msg : String)
  | valueError (msg : String)
deriving DecidableEq

/-- Modelled from the spec: `ParseError.wrap(key)` re-raises a nested
`ParseError` with `key` prepended to its key path (spec section 7); other
exceptions pass through unchanged. -/
def Err.prepend (k : String) : Err → Err
  | .parseError path msg => .parseError (k :: path) msg
  | e => e

/-- The `style` constructor argument of `SubConfig`: `True` (one subkey holding
a dictionary), a prefix string, or `False` (embedded at the current level). -/
inductive Style where
  | subkey
  | prefixed (p : String)
  | embedded
deriving DecidableEq

/-- The nested `Configurable` class wrapped by a `SubConfig`.  In the source it
is the `config` constructor argument (`self._configurable`); the class itself
(`vhdmmio/config/configurable.py`) is not under `src/`, so it is kept abstract:
`keys` is the set of keys its loaders declare (which `SubConfig.deserialize`
obtains by scanning the loaders' `markdown()` output, here determinized as the
list of keys in loader declaration order), `construct parent d` is
`configurable(parent, d)`, `serializeCfg v` is `value.serialize()`, and
`parentOf v` is the `value.parent` attribute used by `validate`.  `π` is the
type of object identities used for Python `is` comparisons. -/
structure ConfigModel (π α : Type) where
  keys : List String
  construct : π → Dict → Except Err α
  serializeCfg : α → Dict
  parentOf : α → π

/-- The `SubConfig` loader state: `key`, the wrapped configurable, the style,
and the `optional` flag (`__init__` in `subconfig.py`).  `selfId` is the
identity of the loader object itself, needed to model the
`value.parent is not self` comparison in `validate`. -/
structure SubConfig (π α : Type) where
  key : String
  model : ConfigModel π α
  style : Style
  optional : Bool
  selfId : π

/-- The `prefix` property of `SubConfig` (lines 25-30): asserts that the style
is not subkey (`assert self._style is not True`), then evaluates
`'%s-' % self._style if self._style else ''` — note the Python truthiness:
an empty prefix string is falsy and yields `''`, exactly like style `False`. -/
def SubConfig.prefixE {π α : Type} (sc : SubConfig π α) : Except Err String :=
  match sc.style with
  | .subkey => .error .assertPrefixStyle
  | .prefixed p => .ok (if p = "" then "" else p ++ "-")
  | .embedded => .ok ""

/-- `dictionary.pop(key, Unset)`: look the key up and remove it; both the
(optional) value and the remaining dictionary are returned. -/
def dictPop (k : String) (d : Dict) : Option Value × Dict :=
  (d.lookup k, d.eraseP (fun kv => kv.1 == k))

/-- The key-extraction loop of `SubConfig.deserialize` (lines 108-115): for
each supported key, `dictionary.pop(self.prefix + key, Unset)`, and when the
key was present, store the value in the scratch dictionary under the
unprefixed name.  Returns the scratch dictionary and the remaining input
dictionary. -/
def extractKeys (ks : List String) (pfx : String) (d : Dict) : Dict × Dict :=
  match ks with
  | [] => ([], d)
  | k :: ks' =>
    let v := d.lookup (pfx ++ k)
    let d' := d.eraseP (fun kv => kv.1 == (pfx ++ k))
    let sr := extractKeys ks' pfx d'
    (match v with
     | some x => (k, x) :: sr.1
     | none => sr.1,
     sr.2)

/-- `SubConfig.deserialize` (lines 78-125).  Subkey style: pop the key; if
absent and optional yield `None`; otherwise the popped value (including the
absent-key sentinel `Unset`) must be a dictionary or `ParseError.invalid`
fires; the nested configurable is constructed from it with nested errors
wrapped by the key (`ParseError.wrap(self.key)`).  Other styles: move the
supported prefixed keys into a scratch dictionary; if it stays empty and the
subconfig is optional yield `None`; otherwise construct the nested
configurable from it, errors re-raised unchanged (`ParseError.wrap()`). -/
def SubConfig.deserialize {π α : Type} (sc : SubConfig π α) (dictionary : Dict)
    (parent : π) : Except Err (Option α × Dict) :=
  if sc.style = .subkey then
    match (dictPop sc.key dictionary).1, (dictPop sc.key dictionary).2 with
    | none, rest =>
      if sc.optional = true then .ok (none, rest)
      else .error (.parseError [sc.key] "expected a dictionary")
    | some (.vdict sub), rest =>
      (match sc.model.construct parent sub with
       | .ok c => .ok (some c, rest)
       | .error e => .error (e.prepend sc.key))
    | some _, _ => .error (.parseError [sc.key] "expected a dictionary")
  else
    match sc.prefixE with
    | .error e => .error e
    | .ok pfx =>
      if (extractKeys sc.model.keys pfx dictionary).1.isEmpty && sc.optional then
        .ok (none, (extractKeys sc.model.keys pfx dictionary).2)
      else
        match sc.model.construct parent (extractKeys sc.model.keys pfx dictionary).1 with
        | .ok c => .ok (some c, (extractKeys sc.model.keys pfx dictionary).2)
        | .error e => .error e

/-- `dictionary[key] = value` on a Python dict: replace in place when the key
exists, append otherwise. -/
def dictInsert (d : Dict) (k : String) (v : Value) : Dict :=
  if (d.lookup k).isSome then
    d.map (fun kv => if kv.1 = k then (k, v) else kv)
  else d ++ [(k, v)]

/-- `SubConfig.serialize` (lines 127-146): `None` asserts the optional flag
and writes nothing; otherwise the nested configurable is serialized and either
stored whole under the subkey, or merged key by key with the prefix
prepended. -/
def SubConfig.serialize {π α : Type} (sc : SubConfig π α) (dictionary : Dict)
    (value : Option α) : Except Err Dict :=
  match value with
  | none =>
    if sc.optional = true then .ok dictionary else .error .assertOptionalValue
  | some c =>
    if sc.style = .subkey then
      .ok (dictInsert dictionary sc.key (.vdict (sc.model.serializeCfg c)))
    else
      match sc.prefixE with
      | .error e => .error e
      | .ok pfx =>
        .ok ((sc.model.serializeCfg c).foldl
          (fun acc kv => dictInsert acc (pfx ++ kv.1) kv.2) dictionary)

/-- `SubConfig.validate` (lines 154-164): an exact type check (`type(value) is
not self._configurable`, which in particular rejects `None`), then the check
that the value was initialized with this loader as its parent
(`value.parent is not self`). -/
def SubConfig.validate {π α : Type} [DecidableEq π] (sc : SubConfig π α)
    (value : Option α) : Except Err Unit :=
  match value with
  | none => .error (.typeError "value must be an instance of the configurable")
  | some c =>
    if sc.model.parentOf c = sc.selfId then .ok ()
    else .error (.valueError "value must have been initialized with us as the parent")

/-- Modelled from the spec: the engine contract of section 4.1 for the nested
`Configurable` (its code is not under `src/`).  `from_dict` treats leftover
keys as fatal, so a successful parse consumes every key of its dictionary, and
each loader's `serialize` "writes back the same key(s) it would have
consumed"; loaders serialize in declaration order, which is also the order in
which `SubConfig.deserialize` gathers the declared keys. -/
structure LawfulModel {π α : Type} (m : ConfigModel π α) (parent : π) : Prop where
  keys_nodup : m.keys.Nodup
  ser_keys_sublist : ∀ v : α, ((m.serializeCfg v).map Prod.fst).Sublist m.keys
  ser_keys_nodup : ∀ v : α, ((m.serializeCfg v).map Prod.fst).Nodup
  roundtrip : ∀ (d : Dict) (v : α), m.construct parent d = .ok v →
    m.construct parent (m.serializeCfg v) = .ok v
  ser_nonempty : ∀ (d : Dict) (v : α), m.construct parent d = .ok v →
    d ≠ [] → m.serializeCfg v ≠ []

/-- A trivial concrete configurable: no declared keys, parses only the empty
dictionary (anything else is an unknown key), serializes to the empty
dictionary. -/
def mUnit : ConfigModel Unit Unit where
  keys := []
  construct := fun _ d =>
    match d with
    | [] => .ok ()
    | (k, _) :: _ => .error (.parseError [k] "unknown configuration key")
  serializeCfg := fun _ => []
  parentOf := fun _ => ()

/-- A concrete configurable with a single declared key `a` whose parsed value
is the raw value stored under `a`. -/
def mKeyA : ConfigModel Unit Value where
  keys := ["a"]
  construct := fun _ d =>
    match d.lookup "a" with
    | some v => .ok v
    | none => .error (.parseError ["a"] "missing required key")
  serializeCfg := fun v => [("a", v)]
  parentOf := fun _ => ()

/-- A concrete configurable whose constructor always fails with a
`ParseError` whose path names its own key `a`. -/
def mFail : ConfigModel Unit Unit where
  keys := ["a"]
  construct := fun _ _ => .error (.parseError ["a"] "bad value")
  serializeCfg := fun _ => []
  parentOf := fun _ => ()

/-- A concrete configurable over object identities `Nat` that records which
parent it was constructed with, exposing it through `parentOf`. -/
def mParent : ConfigModel Nat Nat where
  keys := []
  construct := fun p _ => .ok p
  serializeCfg := fun _ => []
  parentOf := fun v => v

/-! ### BitRange and the field layout engine

`BitRange.from_spec` / `BitRange.to_spec` and the layout expansion are invoked
by `FieldDescriptor.bitrange` (`vhdmmio/new_core/field.py`) but their own code
is not under `src/`; the definitions below are modelled from the spec
(sections 4.2 and 8). -/

/-- Modelled from the spec: the `BitRange` value type of section 3 — byte
address, block size, low and high bit indices, and the scalar flag
distinguishing a single-bit field from a length-1 vector (`BitRange` itself is
not under `src/`). -/
structure BitRange where
  address : Nat
  size : Nat
  low : Nat
  high : Nat
  scalar : Bool
deriving DecidableEq

/-- Modelled from the spec: the error taxonomy for bitrange strings,
`InvalidBitRangeSyntax` and `InvalidBitRangeValue` (section 7). -/
inductive BitRangeError where
  | syntaxError
  | valueError
deriving DecidableEq

/-- Split a character list on a separator character (the separator-handling
part of the bitrange grammar). -/
def splitOnChar (c : Char) : List Char → List (List Char)
  | [] => [[]]
  | x :: xs =>
    let r := splitOnChar c xs
    if x = c then [] :: r
    else
      match r with
      | [] => [[x]]
      | y :: ys => (x :: y) :: ys

/-- The numeric value of one digit character, checked against the base. -/
def digitVal (base : Nat) (c : Char) : Option Nat :=
  let v :=
    if '0' ≤ c ∧ c ≤ '9' then some (c.toNat - '0'.toNat)
    else if 'a' ≤ c ∧ c ≤ 'f' then some (c.toNat - 'a'.toNat + 10)
    else if 'A' ≤ c ∧ c ≤ 'F' then some (c.toNat - 'A'.toNat + 10)
    else none
  match v with
  | some d => if d < base then some d else none
  | none => none

/-- Accumulate a digit string into a number in the given base; `none` on any
non-digit. -/
def digitsToNat (base : Nat) : List Char → Nat → Option Nat
  | [], acc => some acc
  | c :: cs, acc =>
    match digitVal base c with
    | some d => digitsToNat base cs (acc * base + d)
    | none => none

/-- Modelled from the spec: integer literals of the bitrange grammar —
decimal, `0x` hexadecimal, `0` octal, `0b` binary (section 4.2). -/
def parseNumChars : List Char → Option Nat
  | [] => none
  | '0' :: 'x' :: rest => if rest = [] then none else digitsToNat 16 rest 0
  | '0' :: 'b' :: rest => if rest = [] then none else digitsToNat 2 rest 0
  | '0' :: rest => if rest = [] then some 0 else digitsToNat 8 rest 0
  | l => digitsToNat 10 l 0

/-- Modelled from the spec: the bus-width-dependent minimum (and default)
block size — 2 for 32-bit busses, 3 for 64-bit busses (section 4.2). -/
def minBlockSize (busWidth : Nat) : Nat :=
  if busWidth = 64 then 3 else 2

/-- Parse the `[<address>][/<size>]` part of a bitrange string. -/
def parseAddrSize (busWidth : Nat) (l : List Char) :
    Except BitRangeError (Nat × Nat) :=
  match splitOnChar '/' l with
  | [a] =>
    match (if a = [] then some 0 else parseNumChars a) with
    | some addr => .ok (addr, minBlockSize busWidth)
    | none => .error .syntaxError
  | [a, s] =>
    match (if a = [] then some 0 else parseNumChars a), parseNumChars s with
    | some addr, some size =>
      if size < minBlockSize busWidth then .error .valueError
      else .ok (addr, size)
    | _, _ => .error .syntaxError
  | _ => .error .syntaxError

/-- Modelled from the spec: `BitRange.from_spec` — the grammar
`[<address>][/<size>][:<high>[..<low>]]` with defaults address 0, size the
bus-width minimum, high the bus width minus one, low 0; `:x` yields a scalar
field, `:x..x` a length-1 vector; `low > high` and a too-small size are value
errors, anything unparseable a syntax error (sections 4.2, 7, 8). -/
def BitRange.fromSpecChars (busWidth : Nat) (l : List Char) :
    Except BitRangeError BitRange :=
  match splitOnChar ':' l with
  | [addrSize] =>
    match parseAddrSize busWidth addrSize with
    | .error e => .error e
    | .ok (addr, size) =>
      .ok ⟨addr, size, 0, busWidth - 1, false⟩
  | [addrSize, bits] =>
    match parseAddrSize busWidth addrSize with
    | .error e => .error e
    | .ok (addr, size) =>
      match splitOnChar '.' bits with
      | [h] =>
        match parseNumChars h with
        | some hi => .ok ⟨addr, size, hi, hi, true⟩
        | none => .error .syntaxError
      | [h, [], lo] =>
        match parseNumChars h, parseNumChars lo with
        | some hi, some lo =>
          if hi < lo then .error .valueError
          else .ok ⟨addr, size, lo, hi, false⟩
        | _, _ => .error .syntaxError
      | _ => .error .syntaxError
  | _ => .error .syntaxError

/-- `BitRange.from_spec` on a string. -/
def BitRange.fromSpec (busWidth : Nat) (s : String) :
    Except BitRangeError BitRange :=
  BitRange.fromSpecChars busWidth s.data

/-- Modelled from the spec: `BitRange.to_spec`, the canonical formatter —
each component is omitted when it equals its default: the address when 0
(hexadecimal with `0x` otherwise), the size when it is the bus-width minimum,
and the bit indices when the field is a vector spanning the whole block;
scalars print `:high`, other vectors `:high..low` (sections 4.2, 8). -/
def BitRange.toSpecChars (busWidth : Nat) (br : BitRange) : List Char :=
  (if br.address = 0 then [] else '0' :: 'x' :: Nat.toDigits 16 br.address)
  ++ (if br.size = minBlockSize busWidth then [] else '/' :: Nat.toDigits 10 br.size)
  ++ (if br.scalar then ':' :: Nat.toDigits 10 br.high
      else if br.high = busWidth - 1 ∧ br.low = 0 then []
      else ':' :: Nat.toDigits 10 br.high ++ '.' :: '.' :: Nat.toDigits 10 br.low)

/-- `BitRange.to_spec` producing a string. -/
def BitRange.toSpec (busWidth : Nat) (br : BitRange) : String :=
  ⟨BitRange.toSpecChars busWidth br⟩

/-- Fuel-driven spillover loop; the fuel is an upper bound on the number of
physical registers, enough for `fuel * busWidth` to exceed `high`. -/
def spillFuel (fuel : Nat) (busWidth : Nat) (addr : Int) (granule low high : Nat) :
    List (Int × Nat × Nat) :=
  match fuel with
  | 0 => [(addr, low, high)]
  | fuel + 1 =>
    if high < busWidth ∨ busWidth = 0 then [(addr, low, high)]
    else (addr, low, busWidth - 1) ::
      spillFuel fuel busWidth (addr + granule) granule 0 (high - busWidth)

/-- Modelled from the spec: spillover decomposition (section 4.2, step 7) —
while the raw span's upper bound reaches the bus width, split off the low
`busWidth` bits into the current physical register and continue the remainder,
shifted down by `busWidth`, at the next block granule. -/
def spillover (busWidth : Nat) (addr : Int) (granule low high : Nat) :
    List (Int × Nat × Nat) :=
  spillFuel (high + 1) busWidth addr granule low high

/-- Modelled from the spec: the per-index field layout function (section 4.2,
steps 1-7) — effective field repeat, register index and slot, effective
stride (one block granule by default), effective field stride (the field
width by default), the shifted raw bit span, and its spillover decomposition
into `(physical address, local low, local high)` segments. -/
def layoutIndex (busWidth : Nat) (br : BitRange) (rep fieldRep : Option Nat)
    (stride fieldStrideOpt : Option Int) (i : Nat) : List (Int × Nat × Nat) :=
  let repeatEff := rep.getD 1
  let fieldRepeatEff := fieldRep.getD repeatEff
  let regIndex := i / fieldRepeatEff
  let slot := i % fieldRepeatEff
  let strideEff : Int := stride.getD ((2 ^ br.size : Nat) : Int)
  let fieldAddr : Int := (br.address : Int) + (regIndex : Int) * strideEff
  let fieldStrideEff : Int := fieldStrideOpt.getD ((br.high - br.low + 1 : Nat) : Int)
  let lo : Int := (br.low : Int) + (slot : Int) * fieldStrideEff
  let hi : Int := (br.high : Int) + (slot : Int) * fieldStrideEff
  spillover busWidth fieldAddr (2 ^ br.size) lo.toNat hi.toNat

/-! ### Helper lemmas about dictionaries and key extraction -/

deriving instance DecidableEq for Except

theorem strAppend_cancel {p a b : String} (h : p ++ a = p ++ b) : a = b := by
  have h2 : (p ++ a).data = (p ++ b).data := by rw [h]
  simp only [String.data_append] at h2
  exact String.ext (List.append_cancel_left h2)

theorem lookup_eraseP_ne (d : Dict) (k q : String) (h : q ≠ k) :
    (d.eraseP (fun kv => kv.1 == k)).lookup q = d.lookup q := by
  induction d with
  | nil => simp
  | cons kv d ih =>
    obtain ⟨k1, v1⟩ := kv
    by_cases hk : k1 = k
    · subst hk
      rw [List.eraseP_cons_of_pos (by simp)]
      have hq : (q == k1) = false := by simpa using h
      simp [List.lookup_cons, hq]
    · rw [List.eraseP_cons_of_neg (by simpa using hk)]
      simp only [List.lookup_cons]
      cases q == k1 <;> simp [ih]

theorem lookup_notmem_none {d : Dict} {k : String} (h : k ∉ d.map Prod.fst) :
    d.lookup k = none := by
  rw [List.lookup_eq_none_iff]
  intro p hp
  simp only [bne_iff_ne, ne_eq]
  intro hh
  exact h (hh ▸ List.mem_map_of_mem Prod.fst hp)

theorem eraseP_lookup_none {d : Dict} {k : String} (h : d.lookup k = none) :
    d.eraseP (fun kv => kv.1 == k) = d := by
  apply List.eraseP_of_forall_not
  intro a ha
  simp only [beq_iff_eq]
  intro hk
  rw [List.lookup_eq_none_iff] at h
  have := h a ha
  simp [hk] at this

theorem lookup_map_pfx (pfx k : String) (l : Dict) :
    (l.map (fun kv => (pfx ++ kv.1, kv.2))).lookup (pfx ++ k) = l.lookup k := by
  induction l with
  | nil => simp
  | cons kv l ih =>
    obtain ⟨k1, v1⟩ := kv
    simp only [List.map_cons, List.lookup_cons]
    have hbeq : (pfx ++ k == pfx ++ k1) = (k == k1) := by
      by_cases h : k = k1
      · subst h; simp
      · have h2 : ¬(pfx ++ k = pfx ++ k1) := fun hh => h (strAppend_cancel hh)
        simp [h, h2]
    rw [hbeq]
    cases k == k1 <;> simp [ih]

theorem extractKeys_nil_dict (ks : List String) (pfx : String) :
    extractKeys ks pfx [] = ([], []) := by
  induction ks with
  | nil => rfl
  | cons k ks ih => simp [extractKeys, ih]

theorem extractKeys_frame (ks : List String) (pfx : String) (d : Dict) (q : String)
    (h : ∀ k ∈ ks, q ≠ pfx ++ k) :
    ((extractKeys ks pfx d).2).lookup q = d.lookup q := by
  induction ks generalizing d with
  | nil => rfl
  | cons k ks ih =>
    simp only [extractKeys]
    rw [ih _ (fun k' hk' => h k' (List.mem_cons_of_mem _ hk'))]
    exact lookup_eraseP_ne d (pfx ++ k) q (h k (List.mem_cons_self _ _))

theorem extractKeys_keys_sublist (ks : List String) (pfx : String) (d : Dict) :
    (((extractKeys ks pfx d).1).map Prod.fst).Sublist ks := by
  induction ks generalizing d with
  | nil => simp [extractKeys]
  | cons k ks ih =>
    simp only [extractKeys]
    cases h : d.lookup (pfx ++ k) with
    | none => simpa [h] using (ih _).cons k
    | some x => simpa [h] using (ih _).cons₂ k

theorem extractKeys_lookup (ks : List String) (pfx : String) (d : Dict) (k : String)
    (hnd : ks.Nodup) (hk : k ∈ ks) :
    ((extractKeys ks pfx d).1).lookup k = d.lookup (pfx ++ k) := by
  induction ks generalizing d with
  | nil => cases hk
  | cons k0 ks ih =>
    have hnd' := List.nodup_cons.mp hnd
    rcases List.mem_cons.mp hk with rfl | hk'
    · cases h : d.lookup (pfx ++ k) with
      | some x => simp [extractKeys, h]
      | none =>
        simp only [extractKeys, h]
        apply lookup_notmem_none
        intro hmem
        exact hnd'.1 ((extractKeys_keys_sublist ks pfx _).subset hmem)
    · have hk0 : k ≠ k0 := fun h => hnd'.1 (h ▸ hk')
      have herase :
          (d.eraseP (fun kv => kv.1 == pfx ++ k0)).lookup (pfx ++ k) = d.lookup (pfx ++ k) :=
        lookup_eraseP_ne _ _ _ (fun hh => hk0 (strAppend_cancel hh))
      cases h : d.lookup (pfx ++ k0) with
      | none =>
        simp only [extractKeys, h]
        rw [ih _ hnd'.2 hk', herase]
      | some x =>
        have hbeq : (k == k0) = false := by simpa using hk0
        simp only [extractKeys, h, List.lookup_cons, hbeq]
        rw [ih _ hnd'.2 hk', herase]

theorem extractKeys_absent (ks : List String) (pfx : String) (d : Dict)
    (h : ∀ k ∈ ks, d.lookup (pfx ++ k) = none) :
    extractKeys ks pfx d = ([], d) := by
  induction ks with
  | nil => rfl
  | cons k ks ih =>
    have h0 := h k (List.mem_cons_self _ _)
    simp only [extractKeys, h0, eraseP_lookup_none h0]
    rw [ih (fun k' hk' => h k' (List.mem_cons_of_mem _ hk'))]

theorem extractKeys_mapped (ks : List String) (pfx : String) (l : Dict)
    (hks : ks.Nodup) (hl : (l.map Prod.fst).Nodup)
    (hsub : (l.map Prod.fst).Sublist ks) :
    extractKeys ks pfx (l.map (fun kv => (pfx ++ kv.1, kv.2))) = (l, []) := by
  induction ks generalizing l with
  | nil =>
    have h0 : l.map Prod.fst = [] := List.sublist_nil.mp hsub
    have hl0 : l = [] := by cases l <;> simp_all
    subst hl0; rfl
  | cons k ks ih =>
    have hnd' := List.nodup_cons.mp hks
    cases l with
    | nil =>
      simp only [List.map_nil]
      exact extractKeys_nil_dict _ _
    | cons kv l' =>
      obtain ⟨k0, v0⟩ := kv
      have hl2 : (k0 :: l'.map Prod.fst).Nodup := by simpa using hl
      have hl' := List.nodup_cons.mp hl2
      cases hsub with
      | cons₂ a h' =>
        have hih := ih l' hnd'.2 hl'.2 h'
        simp only [List.map_cons]
        simp [extractKeys, hih]
      | cons a h' =>
        have hkmem : k ∉ (((k0, v0) :: l').map Prod.fst) :=
          fun hm => hnd'.1 (h'.subset hm)
        have hnone :
            ((((k0, v0) :: l').map (fun kv => (pfx ++ kv.1, kv.2))) : Dict).lookup (pfx ++ k)
              = none := by
          rw [lookup_map_pfx]
          exact lookup_notmem_none hkmem
        have hih := ih ((k0, v0) :: l') hnd'.2 hl h'
        simp only [List.map_cons] at hnone hih ⊢
        simp [extractKeys, hnone, eraseP_lookup_none hnone, hih]


theorem dictInsert_absent {d : Dict} {k : String} (h : d.lookup k = none) (v : Value) :
    dictInsert d k v = d ++ [(k, v)] := by
  simp [dictInsert, h]

theorem foldl_dictInsert (l : Dict) :
    ∀ acc : Dict, (∀ k ∈ l.map Prod.fst, acc.lookup k = none) →
      (l.map Prod.fst).Nodup →
      l.foldl (fun a kv => dictInsert a kv.1 kv.2) acc = acc ++ l := by
  induction l with
  | nil => intro acc _ _; simp
  | cons kv l ih =>
    intro acc hnone hnd
    obtain ⟨k1, v1⟩ := kv
    have hnd2 : (k1 :: l.map Prod.fst).Nodup := by simpa using hnd
    have hnd' := List.nodup_cons.mp hnd2
    have h1 : acc.lookup k1 = none := hnone k1 (by simp)
    simp only [List.foldl_cons]
    rw [dictInsert_absent h1 v1]
    rw [ih (acc ++ [(k1, v1)]) ?_ hnd'.2]
    · simp
    · intro k hk
      have hkk1 : (k == k1) = false := by
        have : k ≠ k1 := fun h => hnd'.1 (h ▸ hk)
        simpa using this
      rw [List.lookup_append, hnone k (by simp; right; exact (by simpa using hk))]
      simp [List.lookup_cons, hkk1]

theorem deserialize_none_optional {π α : Type} (sc : SubConfig π α) (d rest : Dict)
    (parent : π) (h : sc.deserialize d parent = .ok (none, rest)) :
    sc.optional = true := by
  unfold SubConfig.deserialize at h
  split at h
  · split at h
    · split at h
      · assumption
      · cases h
    · split at h <;> simp_all
    · cases h
  · split at h
    · cases h
    · split at h
      · rename_i hcond
        exact (Bool.and_eq_true_iff.mp hcond).2
      · split at h <;> simp_all

/-- C7: BitRange parsing and formatting are inverse on canonical
specification strings: `"0x10:7..0"` parses to address 0x10, high 7, low 0;
`"/10"` to address 0, size 10, high = bus width − 1 = 31, low 0; `"0x10:5"`
to a scalar with low = high = 5; each formats back to the same string.
`":5"` parses with the scalar flag set and `":5..5"` with it clear, so the
two forms parse to distinct BitRange values though low = high numerically. -/
theorem c7_bitrange_roundtrip :
    (BitRange.fromSpec 32 "0x10:7..0" = .ok ⟨0x10, 2, 0, 7, false⟩
      ∧ (BitRange.fromSpec 32 "0x10:7..0").map (BitRange.toSpec 32) = .ok "0x10:7..0")
    ∧ (BitRange.fromSpec 32 "/10" = .ok ⟨0, 10, 0, 31, false⟩
      ∧ (BitRange.fromSpec 32 "/10").map (BitRange.toSpec 32) = .ok "/10")
    ∧ (BitRange.fromSpec 32 "0x10:5" = .ok ⟨0x10, 2, 5, 5, true⟩
      ∧ (BitRange.fromSpec 32 "0x10:5").map (BitRange.toSpec 32) = .ok "0x10:5")
    ∧ (BitRange.fromSpec 32 ":5" = .ok ⟨0, 2, 5, 5, true⟩
      ∧ BitRange.fromSpec 32 ":5..5" = .ok ⟨0, 2, 5, 5, false⟩
      ∧ BitRange.fromSpec 32 ":5" ≠ BitRange.fromSpec 32 ":5..5") := by
  decide

/-- C8: for bus width 32, laying out the bitrange `"8:47..8"` (default block
size, single field index) produces exactly two segments in ascending address
order — bits 8..31 of physical address 0x08 and bits 0..15 of physical
address 0x0C — by repeatedly splitting off the low bus-width bits and
continuing the remainder, shifted down by the bus width, at the next block
granule. -/
theorem c8_spillover :
    (BitRange.fromSpec 32 "8:47..8").map
        (fun br => layoutIndex 32 br none none none none 0)
      = .ok [((0x08 : Int), 8, 31), ((0x0C : Int), 0, 15)]
    ∧ ((0x08 : Int) < 0x0C) := by
  decide

/-- C2: the claim (and the code's own `markdown()` documentation, lines 40-43
of `subconfig.py`, "Not specifying the key is equivalent to specifying an
empty dictionary") says that for a non-optional Subkey-style SubConfig an
absent key is treated as `{}` and parsed recursively.  The code instead pops
the `Unset` sentinel, which fails the `isinstance(value, dict)` check, so
`ParseError.invalid` is raised — even though the nested configurable parses
the empty dictionary without complaint. -/
theorem c2_absent_subkey_error :
    (SubConfig.mk "sub" mUnit .subkey false ()).deserialize [] ()
        = .error (.parseError ["sub"] "expected a dictionary")
    ∧ mUnit.construct () [] = .ok () := by
  constructor <;> rfl

/-- C5: `validate` must accept every non-None value produced by the same
loader's `deserialize`.  But `deserialize` constructs the nested configurable
with the parent configurable (here object identity 1) as its parent, while
`validate` demands `value.parent is self`, the `SubConfig` loader object
itself (identity 0); the freshly deserialized value is therefore rejected
with the `ValueError` of line 164. -/
theorem c5_validate_rejects :
    (SubConfig.mk "sub" mParent .subkey false 0).deserialize [("sub", .vdict [])] 1
        = .ok (some 1, [])
    ∧ (SubConfig.mk "sub" mParent .subkey false 0).validate (some 1)
        = .error (.valueError "value must have been initialized with us as the parent") := by
  constructor <;> rfl

/-- C9: for every SubConfig style, serializing the `None` value writes no
keys at all and returns the dictionary unchanged when the optional flag is
set (and trips the `assert self._optional` otherwise); and `deserialize`
yields `None` only when the optional flag is set. -/
theorem c9_serialize_none {π α : Type} (sc : SubConfig π α) (d rest : Dict) (parent : π) :
    (sc.optional = true → sc.serialize d none = .ok d)
    ∧ (sc.optional = false → sc.serialize d none = .error .assertOptionalValue)
    ∧ (sc.deserialize d parent = .ok (none, rest) → sc.optional = true) := by
  refine ⟨fun h => ?_, fun h => ?_, fun h => deserialize_none_optional sc d rest parent h⟩
  · simp [SubConfig.serialize, h]
  · simp [SubConfig.serialize, h]

/-- Witness for C9: a concrete optional SubConfig serializing `None` leaves a
non-empty dictionary unchanged. -/
theorem c9_witness :
    (SubConfig.mk "sub" mUnit .subkey true ()).serialize [("x", .vint 3)] none
      = .ok [("x", .vint 3)] :=
  (c9_serialize_none (SubConfig.mk "sub" mUnit .subkey true ()) [("x", .vint 3)] [] ()).1 rfl

/-- A helper fact about the trivial model: its constructor never raises the
prefix assertion. -/
theorem mUnit_no_assert (dd : Dict) :
    mUnit.construct () dd ≠ .error .assertPrefixStyle := by
  cases dd <;> simp [mUnit]

/-- C10 counterexample: for Prefixed style with the empty prefix string the
`prefix` property returns the empty string — the Python expression
`'%s-' % self._style if self._style else ''` takes the falsy branch — and not
the style string followed by a dash as the claim states for Prefixed style. -/
theorem c10_counterexample :
    (SubConfig.mk "sub" mUnit (.prefixed "") false ()).prefixE = .ok ""
    ∧ ("" : String) ≠ "" ++ "-" := by
  exact ⟨rfl, by decide⟩

/-- C10 (amended): under the precondition style ≠ True the `prefix` property
always succeeds (the guarding assertion never fires), returning the style
string followed by a dash for Prefixed style with a non-empty prefix, and the
empty string for Inline style or for Prefixed style with the empty prefix;
for a Subkey-style SubConfig the assertion is the property's only outcome,
but neither `deserialize` (as long as the nested constructor does not itself
raise it) nor `serialize` ever evaluates the property, so the assertion never
fires during normal operation. -/
theorem c10_prefix_safety {π α : Type} (sc : SubConfig π α) (d : Dict) (parent : π)
    (v : Option α)
    (hc : ∀ dd : Dict, sc.model.construct parent dd ≠ .error .assertPrefixStyle) :
    (∀ p : String, sc.style = .prefixed p → p ≠ "" → sc.prefixE = .ok (p ++ "-"))
    ∧ (sc.style = .embedded ∨ sc.style = .prefixed "" → sc.prefixE = .ok "")
    ∧ (sc.style ≠ .subkey → ∃ r : String, sc.prefixE = .ok r)
    ∧ (sc.style = .subkey → sc.prefixE = .error .assertPrefixStyle)
    ∧ (sc.style = .subkey → sc.deserialize d parent ≠ .error .assertPrefixStyle)
    ∧ (sc.style = .subkey → sc.serialize d v ≠ .error .assertPrefixStyle) := by
  refine ⟨?_, ?_, ?_, ?_, ?_, ?_⟩
  · intro p hp hpne
    simp [SubConfig.prefixE, hp, hpne]
  · rintro (h | h) <;> simp [SubConfig.prefixE, h]
  · intro h
    cases hsty : sc.style with
    | subkey => exact absurd hsty h
    | prefixed p =>
      exact ⟨if p = "" then "" else p ++ "-", by simp [SubConfig.prefixE, hsty]⟩
    | embedded => exact ⟨"", by simp [SubConfig.prefixE, hsty]⟩
  · intro h
    simp [SubConfig.prefixE, h]
  · intro hst heq
    unfold SubConfig.deserialize at heq
    rw [if_pos hst] at heq
    split at heq
    · split at heq <;> cases heq
    · split at heq
      · cases heq
      · rename_i sub rest e hcon
        cases e <;> simp [Err.prepend] at heq
        exact hc _ hcon
    · cases heq
  · intro hst heq
    unfold SubConfig.serialize at heq
    cases v with
    | none =>
      simp only at heq
      split at heq <;> cases heq
    | some c =>
      simp only at heq
      rw [if_pos hst] at heq
      cases heq

/-- Witness for C10 at a concrete non-empty-prefix SubConfig. -/
theorem c10_witness :
    (SubConfig.mk "sub" mUnit (.prefixed "p") false ()).prefixE = .ok ("p" ++ "-") :=
  (c10_prefix_safety (SubConfig.mk "sub" mUnit (.prefixed "p") false ()) [] () none
    (fun dd => mUnit_no_assert dd)).1 "p" rfl (by decide)

/-- C6 counterexample: an Inline-style SubConfig with key `sub` whose nested
configurable fails with a `ParseError` at path `a` re-raises that error
unchanged — its own key `sub` is not prepended to the path, contrary to the
claim that the key is prepended at every nesting level. -/
theorem c6_counterexample :
    (SubConfig.mk "sub" mFail .embedded false ()).deserialize [("a", .vint 1)] ()
        = .error (.parseError ["a"] "bad value")
    ∧ (["a"] : List String).head? ≠ some "sub" := by
  exact ⟨rfl, by decide⟩

/-- C6 (amended): when parsing the nested configurable fails, a Subkey-style
SubConfig re-raises the error with its own key prepended to the key path
(`ParseError.wrap(self.key)`), while Prefixed/Inline-style SubConfigs
re-raise the nested error unchanged (their `ParseError.wrap()` call passes no
key). -/
theorem c6_error_wrapping {π α : Type} (sc : SubConfig π α) (d sub : Dict) (parent : π)
    (e : Err) :
    (sc.style = .subkey → d.lookup sc.key = some (.vdict sub) →
      sc.model.construct parent sub = .error e →
      sc.deserialize d parent = .error (e.prepend sc.key))
    ∧ (∀ pfx : String, sc.prefixE = .ok pfx →
      ¬((extractKeys sc.model.keys pfx d).1.isEmpty = true ∧ sc.optional = true) →
      sc.model.construct parent (extractKeys sc.model.keys pfx d).1 = .error e →
      sc.deserialize d parent = .error e) := by
  constructor
  · intro hst hlk hcon
    unfold SubConfig.deserialize
    rw [if_pos hst]
    simp [dictPop, hlk, hcon]
  · intro pfx hpfx hne hcon
    have hst : ¬(sc.style = .subkey) := by
      intro h
      rw [SubConfig.prefixE, h] at hpfx
      cases hpfx
    unfold SubConfig.deserialize
    rw [if_neg hst, hpfx]
    have hcond : ((extractKeys sc.model.keys pfx d).1.isEmpty && sc.optional) = false := by
      rw [Bool.and_eq_false_iff]
      by_cases h1 : (extractKeys sc.model.keys pfx d).1.isEmpty = true
      · right
        by_cases h2 : sc.optional = true
        · exact absurd ⟨h1, h2⟩ hne
        · simpa using h2
      · left
        simpa using h1
    simp [hcond, hcon]

/-- Witness for C6 at a concrete Subkey-style SubConfig: the nested error at
path `a` comes back with `sub` prepended. -/
theorem c6_witness :
    (SubConfig.mk "sub" mFail .subkey false ()).deserialize [("sub", .vdict [])] ()
        = .error (.parseError ["sub", "a"] "bad value") :=
  (c6_error_wrapping (SubConfig.mk "sub" mFail .subkey false ()) [("sub", .vdict [])] [] ()
    (.parseError ["a"] "bad value")).1 rfl rfl rfl

/-- C3 counterexample: a Prefixed-style SubConfig with the empty prefix
string is constructible (the `embedded` decorator passes any string through),
and for it `deserialize` pops the bare declared key `a` — which is not of the
claimed form `p + "-" + k` — so the key is consumed instead of being left
untouched as the claim requires. -/
theorem c3_counterexample :
    (SubConfig.mk "sub" mKeyA (.prefixed "") false ()).deserialize [("a", .vint 1)] ()
        = .ok (some (.vint 1), [])
    ∧ ("a" : String) ≠ "" ++ "-" ++ "a" := by
  exact ⟨rfl, by decide⟩

/-- C3 (amended): for a Prefixed-style SubConfig with a non-empty prefix p,
`deserialize` moves `p ++ "-" ++ k` (when present) into the scratch
dictionary under the unprefixed name k for each key k declared by the nested
schema, leaves every key not of that form untouched, yields no value — and
never calls the nested constructor — when the SubConfig is optional and
nothing was found, and otherwise parses the scratch dictionary with the
nested constructor. -/
theorem c3_prefixed_extraction {π α : Type} (sc : SubConfig π α) (p : String)
    (d : Dict) (parent : π) (hp : sc.style = .prefixed p) (hpne : p ≠ "")
    (hnd : sc.model.keys.Nodup) :
    (∀ q : String, (∀ k ∈ sc.model.keys, q ≠ p ++ "-" ++ k) →
      ((extractKeys sc.model.keys (p ++ "-") d).2).lookup q = d.lookup q)
    ∧ (∀ k ∈ sc.model.keys,
      ((extractKeys sc.model.keys (p ++ "-") d).1).lookup k = d.lookup (p ++ "-" ++ k))
    ∧ ((∀ k ∈ sc.model.keys, d.lookup (p ++ "-" ++ k) = none) → sc.optional = true →
      sc.deserialize d parent = .ok (none, d))
    ∧ ((extractKeys sc.model.keys (p ++ "-") d).1 ≠ [] ∨ sc.optional = false →
      sc.deserialize d parent =
        match sc.model.construct parent (extractKeys sc.model.keys (p ++ "-") d).1 with
        | .ok c => .ok (some c, (extractKeys sc.model.keys (p ++ "-") d).2)
        | .error e => .error e) := by
  have hpfx : sc.prefixE = .ok (p ++ "-") := by
    simp [SubConfig.prefixE, hp, hpne]
  have hst : ¬(sc.style = .subkey) := by
    rw [hp]; intro h; cases h
  refine ⟨?_, ?_, ?_, ?_⟩
  · intro q hq
    exact extractKeys_frame sc.model.keys (p ++ "-") d q
      (fun k hk => by simpa [String.append_assoc] using hq k hk)
  · intro k hk
    simpa [String.append_assoc] using extractKeys_lookup sc.model.keys (p ++ "-") d k hnd hk
  · intro habs hopt
    have hext : extractKeys sc.model.keys (p ++ "-") d = ([], d) :=
      extractKeys_absent sc.model.keys (p ++ "-") d
        (fun k hk => by simpa [String.append_assoc] using habs k hk)
    unfold SubConfig.deserialize
    rw [if_neg hst, hpfx]
    simp [hext, hopt]
  · intro hne
    unfold SubConfig.deserialize
    rw [if_neg hst, hpfx]
    have hcond : ((extractKeys sc.model.keys (p ++ "-") d).1.isEmpty && sc.optional) = false := by
      rcases hne with hne | hne
      · have : (extractKeys sc.model.keys (p ++ "-") d).1.isEmpty = false := by
          simpa [List.isEmpty_iff] using hne
        simp [this]
      · simp [hne]
    simp only [hcond, Bool.false_eq_true, if_false]

/-- Witness for C3 at a concrete SubConfig with prefix `p`: the prefixed key
`p-a` is moved into the scratch dictionary under `a`. -/
theorem c3_witness :
    ((extractKeys mKeyA.keys ("p" ++ "-") [("p-a", .vint 2), ("z", .vint 9)]).1).lookup "a"
      = ([("p-a", Value.vint 2), ("z", Value.vint 9)] : Dict).lookup ("p" ++ "-" ++ "a") :=
  ((c3_prefixed_extraction (SubConfig.mk "sub" mKeyA (.prefixed "p") true ())
    "p" [("p-a", .vint 2), ("z", .vint 9)] () rfl (by decide) (by decide)).2).1 "a"
    (by decide)

/-- C4: given equivalent nested content, the three key-embedding styles
deserialize to structurally equal nested objects — `{"sub": {"a": w}}` under
Subkey style, `{"sub-a": w}` under Prefixed style `sub`, and `{"a": w}` under
Inline style all produce the same parsed value with nothing left over — and
Inline deserializes identically to Prefixed with the empty prefix on every
input. -/
theorem c4_style_equivalence {π α : Type} (m : ConfigModel π α) (parent sid : π)
    (w : Value) (o : Bool) (c : α) (hk : m.keys = ["a"])
    (hc : m.construct parent [("a", w)] = .ok c) :
    (SubConfig.mk "sub" m .subkey o sid).deserialize [("sub", .vdict [("a", w)])] parent
        = .ok (some c, [])
    ∧ (SubConfig.mk "sub" m (.prefixed "sub") o sid).deserialize [("sub-a", w)] parent
        = .ok (some c, [])
    ∧ (SubConfig.mk "sub" m .embedded o sid).deserialize [("a", w)] parent
        = .ok (some c, [])
    ∧ ∀ (key : String) (m' : ConfigModel π α) (o' : Bool) (sid' : π) (d : Dict) (q : π),
        (SubConfig.mk key m' .embedded o' sid').deserialize d q
          = (SubConfig.mk key m' (.prefixed "") o' sid').deserialize d q := by
  refine ⟨?_, ?_, ?_, ?_⟩
  · simp [SubConfig.deserialize, dictPop, hc]
  · have hkey : (("sub-" : String) ++ "a") = "sub-a" := by decide
    have hext : extractKeys ["a"] "sub-" [("sub-a", w)] = ([("a", w)], []) := by
      simp [extractKeys, hkey]
    simp [SubConfig.deserialize, SubConfig.prefixE, hk, hext, hc]
  · have hext : extractKeys ["a"] "" [("a", w)] = ([("a", w)], []) := by
      simp [extractKeys, (by decide : (("" ++ "a" : String)) = "a")]
    simp [SubConfig.deserialize, SubConfig.prefixE, hk, hext, hc]
  · intro key m' o' sid' d q
    simp [SubConfig.deserialize, SubConfig.prefixE]

/-- Witness for C4 at a concrete one-key configurable: the Subkey-style form
parses `{"sub": {"a": 1}}` to the nested value 1 and nothing left over. -/
theorem c4_witness :
    (SubConfig.mk "sub" mKeyA .subkey false ()).deserialize
        [("sub", .vdict [("a", .vint 1)])] () = .ok (some (.vint 1), []) :=
  (c4_style_equivalence mKeyA () () (.vint 1) false (.vint 1) rfl rfl).1

/-- C1: for every SubConfig style and every value `v` its `deserialize`
produces from some input dictionary, serializing `v` into a fresh empty
dictionary and deserializing that dictionary again yields exactly `v` (with
nothing left over): serialize is the left inverse of deserialize, provided
the wrapped configurable satisfies the engine contract of spec section 4.1
(`LawfulModel`). -/
theorem c1_subconfig_roundtrip {π α : Type} (sc : SubConfig π α) (parent : π)
    (lm : LawfulModel sc.model parent) (v : Option α) (d0 rest0 : Dict)
    (hprod : sc.deserialize d0 parent = .ok (v, rest0)) :
    ∃ D : Dict, sc.serialize [] v = .ok D ∧ sc.deserialize D parent = .ok (v, []) := by
  cases v with
  | none =>
    have hopt := deserialize_none_optional sc d0 rest0 parent hprod
    refine ⟨[], ?_, ?_⟩
    · simp [SubConfig.serialize, hopt]
    · by_cases hst : sc.style = .subkey
      · simp [SubConfig.deserialize, hst, dictPop, hopt]
      · obtain ⟨pfx, hpfx⟩ : ∃ r, sc.prefixE = .ok r := by
          cases hsty : sc.style with
          | subkey => exact absurd hsty hst
          | prefixed p =>
            exact ⟨if p = "" then "" else p ++ "-", by simp [SubConfig.prefixE, hsty]⟩
          | embedded => exact ⟨"", by simp [SubConfig.prefixE, hsty]⟩
        unfold SubConfig.deserialize
        rw [if_neg hst, hpfx]
        simp [extractKeys_nil_dict, hopt]
  | some c =>
    by_cases hst : sc.style = .subkey
    · unfold SubConfig.deserialize at hprod
      rw [if_pos hst] at hprod
      simp only [dictPop] at hprod
      split at hprod
      · split at hprod <;> simp_all
      · rename_i sub heq
        cases hcon : sc.model.construct parent sub with
        | error e => rw [hcon] at hprod; cases hprod
        | ok c' =>
          rw [hcon] at hprod
          have hcc : c' = c := by
            simp only [Except.ok.injEq, Prod.mk.injEq, Option.some.injEq] at hprod
            exact hprod.1
          subst hcc
          refine ⟨[(sc.key, .vdict (sc.model.serializeCfg c'))], ?_, ?_⟩
          · simp [SubConfig.serialize, hst, dictInsert]
          · unfold SubConfig.deserialize
            rw [if_pos hst]
            simp [dictPop, lm.roundtrip sub c' hcon]
      · cases hprod
    · unfold SubConfig.deserialize at hprod
      rw [if_neg hst] at hprod
      split at hprod
      · rename_i e heq
        refine absurd heq ?_
        cases hsty : sc.style with
        | subkey => exact absurd hsty hst
        | prefixed p => simp [SubConfig.prefixE, hsty]
        | embedded => simp [SubConfig.prefixE, hsty]
      · rename_i pfx hpfx
        by_cases hcond : ((extractKeys sc.model.keys pfx d0).1.isEmpty && sc.optional) = true
        · rw [if_pos hcond] at hprod
          simp at hprod
        · rw [if_neg hcond] at hprod
          cases hcon : sc.model.construct parent (extractKeys sc.model.keys pfx d0).1 with
          | error e => rw [hcon] at hprod; cases hprod
          | ok c' =>
            rw [hcon] at hprod
            have hcc : c' = c := by
              simp only [Except.ok.injEq, Prod.mk.injEq, Option.some.injEq] at hprod
              exact hprod.1
            subst hcc
            have hser := lm.roundtrip _ _ hcon
            have hinj : Function.Injective (fun k : String => pfx ++ k) :=
              fun a b h => strAppend_cancel h
            have hmapkeys :
                ((sc.model.serializeCfg c').map (fun kv => (pfx ++ kv.1, kv.2))).map Prod.fst
                  = ((sc.model.serializeCfg c').map Prod.fst).map (fun k => pfx ++ k) := by
              simp [List.map_map]
            have hmnd :
                (((sc.model.serializeCfg c').map (fun kv => (pfx ++ kv.1, kv.2))).map
                  Prod.fst).Nodup := by
              rw [hmapkeys]
              exact (lm.ser_keys_nodup c').map hinj
            have hfold :
                (sc.model.serializeCfg c').foldl
                    (fun acc kv => dictInsert acc (pfx ++ kv.1) kv.2) []
                  = (sc.model.serializeCfg c').map (fun kv => (pfx ++ kv.1, kv.2)) := by
              have hff := foldl_dictInsert
                ((sc.model.serializeCfg c').map (fun kv => (pfx ++ kv.1, kv.2))) []
                (fun k _ => by simp) hmnd
              rw [List.foldl_map] at hff
              simpa using hff
            have hext2 :
                extractKeys sc.model.keys pfx
                    ((sc.model.serializeCfg c').map (fun kv => (pfx ++ kv.1, kv.2)))
                  = (sc.model.serializeCfg c', []) :=
              extractKeys_mapped sc.model.keys pfx (sc.model.serializeCfg c')
                lm.keys_nodup (lm.ser_keys_nodup c') (lm.ser_keys_sublist c')
            have hLempty : ((sc.model.serializeCfg c').isEmpty && sc.optional) = false := by
              cases hopt : sc.optional with
              | false => simp
              | true =>
                have hcondf :
                    ((extractKeys sc.model.keys pfx d0).1.isEmpty && sc.optional) = false := by
                  simpa using hcond
                rw [hopt] at hcondf
                simp only [Bool.and_true] at hcondf
                have hne : (extractKeys sc.model.keys pfx d0).1 ≠ [] := by
                  simpa using hcondf
                have hLne : sc.model.serializeCfg c' ≠ [] :=
                  lm.ser_nonempty _ c' hcon hne
                simp [hLne]
            refine ⟨(sc.model.serializeCfg c').map (fun kv => (pfx ++ kv.1, kv.2)), ?_, ?_⟩
            · simp [SubConfig.serialize, hst, hpfx, hfold]
            · simp [SubConfig.deserialize, hst, hpfx, hext2, hLempty, hser]

/-- Witness for C1: the trivial configurable under a non-optional
Subkey-style SubConfig round-trips from the input `[("sub": {})]`. -/
theorem c1_witness :
    ∃ D : Dict,
      (SubConfig.mk "sub" mUnit .subkey false ()).serialize [] (some ()) = .ok D
      ∧ (SubConfig.mk "sub" mUnit .subkey false ()).deserialize D () = .ok (some (), []) :=
  c1_subconfig_roundtrip (SubConfig.mk "sub" mUnit .subkey false ()) ()
    ⟨by simp [mUnit],
     fun v => by simp [mUnit],
     fun v => by simp [mUnit],
     fun d v h => by cases v; cases d with
       | nil => simp [mUnit]
       | cons kv d => simp [mUnit] at h,
     fun d v h hne => by cases d with
       | nil => exact absurd rfl hne
       | cons kv d => simp [mUnit] at h⟩
    (some ()) [("sub", .vdict [])] [] rfl

end Vhdmmio
